import Mathlib

/-!
Shallow embedding of the optogenetic cell-motility simulator
(`microscope_sim.py`): deformable-polygon cells on a toroidal field with
vertex-based stimulation, stochastic ruffling, area conservation and
pairwise collision resolution.

Modelling conventions:
* Python floats are modelled by exact reals (`ℝ`).
* The shared `random.Random` instance is modelled by `RNG`: an abstract
  stream of underlying draws plus a position.  `random()`/`uniform` draws
  come from the `floats` stream (well-formed streams stay in `[0,1)`),
  `normalvariate mu sigma` returns `mu + sigma * z` for a stream value `z`
  (a standard normal variate has full real support, so `z` is
  unconstrained), and `randint a b` returns `a + ⌊u * (b - a + 1)⌋`,
  matching Python's inclusive-bounds semantics.  Every draw advances the
  position, so draw order and consumption are observable.
* `dt` in `get_frame` is read from a wall clock in the source; it is the
  one ambient input of a tick and is passed explicitly here.
* numpy fancy indexing out of bounds raises `IndexError`; fallible
  operations therefore return `Option`, with `none` for the raised error.
-/

set_option maxHeartbeats 1000000

noncomputable section

open Classical Real

/-- Abstract state of the shared `random.Random` generator: two underlying
draw streams and the current position in them. -/
structure RNG where
  floats : ℕ → ℝ
  gauss : ℕ → ℝ
  pos : ℕ

/-- Advance the generator position after consuming `n` draws. -/
def RNG.advance (g : RNG) (n : ℕ) : RNG := { g with pos := g.pos + n }

/-- `rng.random()`: one uniform `[0,1)` draw. -/
def RNG.random (g : RNG) : ℝ × RNG := (g.floats g.pos, g.advance 1)

/-- `rng.uniform(a, b) = a + (b - a) * random()`. -/
def RNG.uniform (g : RNG) (a b : ℝ) : ℝ × RNG :=
  (a + (b - a) * g.floats g.pos, g.advance 1)

/-- `rng.normalvariate(mu, sigma)`: `mu + sigma * z` for a standard normal
stream value `z`. -/
def RNG.normalvariate (g : RNG) (mu sigma : ℝ) : ℝ × RNG :=
  (mu + sigma * g.gauss g.pos, g.advance 1)

/-- `rng.randint(a, b)`: Python's inclusive-bounds integer draw, realised
as `a + ⌊u * (b - a + 1)⌋` for a uniform `u ∈ [0,1)`. -/
def RNG.randint (g : RNG) (a b : ℤ) : ℤ × RNG :=
  (a + ⌊g.floats g.pos * ((b : ℝ) - (a : ℝ) + 1)⌋, g.advance 1)

/-- Well-formedness of a generator: the uniform stream stays in `[0,1)`. -/
def RNG.wf (g : RNG) : Prop := ∀ n, 0 ≤ g.floats n ∧ g.floats n < 1

/-- Python float modulo `x % L` for positive `L`: `x - L * ⌊x / L⌋`. -/
def fmod (x L : ℝ) : ℝ := x - L * ⌊x / L⌋

/-- `wrap(pos, width, height) = (pos[0] % width, pos[1] % height)`. -/
def wrap (p : ℝ × ℝ) (width height : ℕ) : ℝ × ℝ :=
  (fmod p.1 width, fmod p.2 height)

/-- `np.clip(x, lo, hi)`. -/
def clip (x lo hi : ℝ) : ℝ := min (max x lo) hi

/-- Python 3 `round`: round half to even, used by `collide` for the
minimum-image correction. -/
def pyRound (x : ℝ) : ℤ :=
  if Int.fract x = 1 / 2 then (if Even ⌊x⌋ then ⌊x⌋ else ⌊x⌋ + 1) else round x

/-- Shoelace sum of `polygon_area`: indices are cyclic, matching
`np.roll(·, -1)`. -/
def polygon_area {V : ℕ} [NeZero V] (pts : ZMod V → ℝ × ℝ) : ℝ :=
  2⁻¹ * ((∑ i, (pts i).1 * (pts (i + 1)).2) - ∑ i, (pts i).2 * (pts (i + 1)).1)

/-- Vertex heading angles `np.linspace(0, 2π, V, endpoint=False)`. -/
def angle (V : ℕ) (i : ZMod V) : ℝ := 2 * π * (i.val : ℝ) / V

/-- One cell: per-vertex radii indexed by the cyclic vertex index, centroid,
velocity and the per-cell physical parameters stored by `Cell.__init__`.
`area0 = π * base_r ^ 2` is derived from the immutable `base_r`. -/
structure Cell (V : ℕ) where
  width : ℕ
  height : ℕ
  base_r : ℝ
  r : ZMod V → ℝ
  vel : ℝ × ℝ
  center : ℝ × ℝ
  friction : ℝ
  brownian_d : ℝ
  curvature_relax : ℝ
  radial_relax : ℝ
  protrusion_gain : ℝ
  impulse : ℝ
  ruffle_std : ℝ

instance instZModNonempty (V : ℕ) : Nonempty (ZMod V) := ⟨0⟩

variable {V : ℕ} [NeZero V]

/-- Relative vertex position `(cos θᵢ * rᵢ, sin θᵢ * rᵢ)` (`_rel_pts`). -/
def Cell.relPt (c : Cell V) (i : ZMod V) : ℝ × ℝ :=
  (Real.cos (angle V i) * c.r i, Real.sin (angle V i) * c.r i)

/-- Absolute vertex position: relative point translated by the centroid. -/
def Cell.absPt (c : Cell V) (i : ZMod V) : ℝ × ℝ :=
  (c.center.1 + (c.relPt i).1, c.center.2 + (c.relPt i).2)

/-- `_conserve_area`: if the absolute shoelace area of the current polygon
is nonzero, rescale all radii by `sqrt(area0 / area)`. -/
def Cell.conserve_area (c : Cell V) : Cell V :=
  if |polygon_area c.absPt| = 0 then c
  else { c with r := fun i => c.r i * Real.sqrt (π * c.base_r ^ 2 / |polygon_area c.absPt|) }

/-- The radius clamp `np.clip(r, 0.4 * base_r, 2.2 * base_r)` applied in
both `stimulate` and `update`. -/
def Cell.clampR (c : Cell V) (r0 : ZMod V → ℝ) : ZMod V → ℝ :=
  fun i => clip (r0 i) (0.4 * c.base_r) (2.2 * c.base_r)

/-- Raw vertex coordinates `(vx, vy)` computed at the top of `stimulate`. -/
def Cell.vpos (c : Cell V) (i : ZMod V) : ℝ × ℝ :=
  (c.center.1 + Real.cos (angle V i) * c.r i, c.center.2 + Real.sin (angle V i) * c.r i)

/-- The `inside` predicate of `stimulate`: the raw vertex position lies in
`[0, width) × [0, height)`. -/
def Cell.vInside (c : Cell V) (i : ZMod V) : Prop :=
  0 ≤ (c.vpos i).1 ∧ (c.vpos i).1 < c.width ∧ 0 ≤ (c.vpos i).2 ∧ (c.vpos i).2 < c.height

/-- A stimulation mask: a `h × w` boolean grid, indexed row-major
(`data y x`). -/
structure Mask where
  h : ℕ
  w : ℕ
  data : ℕ → ℕ → Bool

/-- `mask.any()`. -/
def Mask.any (m : Mask) : Prop := ∃ y x, y < m.h ∧ x < m.w ∧ m.data y x = true

/-- Integer pixel `(iy, ix)` of a vertex, truncating the nonnegative raw
coordinates (`astype(int)`). -/
def Cell.pix (c : Cell V) (i : ZMod V) : ℕ × ℕ :=
  (⌊(c.vpos i).2⌋.toNat, ⌊(c.vpos i).1⌋.toNat)

/-- Whether a vertex's pixel is a valid index into the mask; indexing
outside raises `IndexError` in `mask[iy, ix]`. -/
def Cell.vInBounds (c : Cell V) (m : Mask) (i : ZMod V) : Prop :=
  (c.pix i).1 < m.h ∧ (c.pix i).2 < m.w

/-- A retained vertex whose mask pixel is true (`hit`). -/
def Cell.vHit (c : Cell V) (m : Mask) (i : ZMod V) : Prop :=
  c.vInside i ∧ m.data (c.pix i).1 (c.pix i).2 = true

/-- `Cell.stimulate`: protrude hit vertices, clamp, conserve area, then add
an impulse toward the mean hit position.  Returns `none` when the numpy
indexing `mask[iy, ix]` raises, `some` otherwise; the RNG is in scope in
the source but never consulted, and is returned unchanged. -/
def Cell.stimulate (c : Cell V) (g : RNG) (m : Mask) : Option (Cell V × RNG) :=
  if ¬ ∃ i, c.vInside i then some (c, g)
  else if ∃ i, c.vInside i ∧ ¬ c.vInBounds m i then none
  else if ¬ ∃ i, c.vHit m i then some (c, g)
  else
    let r2 := c.clampR (fun i => if c.vHit m i then c.r i + c.protrusion_gain * c.base_r else c.r i)
    let c1 := Cell.conserve_area { c with r := r2 }
    let hits := Finset.univ.filter (fun i => c.vHit m i)
    let tgt := ((∑ i ∈ hits, (c.vpos i).1) / hits.card, (∑ i ∈ hits, (c.vpos i).2) / hits.card)
    let vec := (tgt.1 - c.center.1, tgt.2 - c.center.2)
    let nv := Real.sqrt (vec.1 ^ 2 + vec.2 ^ 2)
    let vel2 := if nv = 0 then c.vel
      else (c.vel.1 + vec.1 / nv * c.impulse, c.vel.2 + vec.2 / nv * c.impulse)
    some ({ c1 with vel := vel2 }, g)

/-- The harmonic factor `rng.randint(1, 3)` drawn inside `update`; with
Python's inclusive bounds its support is `{1, 2, 3}`. -/
def ruffleHarmonic (g : RNG) : ℤ := ((g.advance 1).randint 1 3).1

/-- The ruffling stage of `update`: one shared normal amplitude, one shared
integer harmonic and one shared phase per cell, added to every radius. -/
def Cell.ruffledRadii (c : Cell V) (g : RNG) : ZMod V → ℝ := fun i =>
  c.r i + (g.normalvariate 0 (c.ruffle_std * c.base_r)).1 *
    Real.cos ((ruffleHarmonic g : ℝ) * angle V i + ((g.advance 2).uniform 0 (2 * π)).1)

/-- State of a cell after the drift, ruffle, relaxation and clamp stages of
`update`, just before `_conserve_area`.  Draw order matches the source:
Brownian amplitude, heading, ruffle amplitude, harmonic, phase. -/
def Cell.updateMid (c : Cell V) (g : RNG) (dt : ℝ) : Cell V :=
  let amp := (g.normalvariate 0 (Real.sqrt (2 * c.brownian_d * dt))).1
  let ang := ((g.advance 1).uniform 0 (2 * π)).1
  let vel1 := (c.vel.1 + amp * Real.cos ang, c.vel.2 + amp * Real.sin ang)
  let center2 := wrap (c.center.1 + vel1.1 * dt, c.center.2 + vel1.2 * dt) c.width c.height
  let fr := max 0 (1 - c.friction * dt)
  let r1 := c.ruffledRadii (g.advance 2)
  let r2 := fun i => r1 i + c.curvature_relax * (r1 (i + 1) + r1 (i - 1) - 2 * r1 i)
    + c.radial_relax * (c.base_r - r1 i)
  { c with center := center2, vel := (vel1.1 * fr, vel1.2 * fr), r := c.clampR r2 }

/-- `Cell.update(dt)`: the physics step, consuming five draws and ending in
`_conserve_area`. -/
def Cell.update (c : Cell V) (g : RNG) (dt : ℝ) : Cell V × RNG :=
  (Cell.conserve_area (c.updateMid g dt), g.advance 5)

/-- `max(self.r)`: the largest vertex radius, the effective collision
radius. -/
def Cell.maxR (c : Cell V) : ℝ := Finset.univ.sup' Finset.univ_nonempty c.r

/-- Minimum-image displacement between two centers, using Python's
banker's rounding as in the source. -/
def Cell.dvec (c1 c2 : Cell V) : ℝ × ℝ :=
  (c2.center.1 - c1.center.1 - c1.width * pyRound ((c2.center.1 - c1.center.1) / c1.width),
   c2.center.2 - c1.center.2 - c1.height * pyRound ((c2.center.2 - c1.center.2) / c1.height))

/-- Distance of the minimum-image displacement. -/
def Cell.cdist (c1 c2 : Cell V) : ℝ :=
  Real.sqrt ((Cell.dvec c1 c2).1 ^ 2 + (Cell.dvec c1 c2).2 ^ 2)

/-- `overlap = max(self.r) + max(other.r) - dist`. -/
def Cell.overlap (c1 c2 : Cell V) : ℝ := c1.maxR + c2.maxR - Cell.cdist c1 c2

/-- `Cell.collide`: skip coincident or non-overlapping pairs, otherwise
push both centers apart by `0.5 * (overlap + 0.5)` along the unit
displacement, re-wrap and zero both velocities. -/
def Cell.collide (c1 c2 : Cell V) : Cell V × Cell V :=
  if Cell.cdist c1 c2 = 0 then (c1, c2)
  else if Cell.overlap c1 c2 ≤ 0 then (c1, c2)
  else
    let d := Cell.cdist c1 c2
    let sh := (0.5 * (Cell.overlap c1 c2 + 0.5) * ((Cell.dvec c1 c2).1 / d),
               0.5 * (Cell.overlap c1 c2 + 0.5) * ((Cell.dvec c1 c2).2 / d))
    ({ c1 with
        center := wrap (c1.center.1 - sh.1, c1.center.2 - sh.2) c1.width c1.height,
        vel := (0, 0) },
     { c2 with
        center := wrap (c2.center.1 + sh.1, c2.center.2 + sh.2) c2.width c2.height,
        vel := (0, 0) })

/-- Construction parameters of `MicroscopeSim` that reach the physics core
(the image post-processing parameters never touch cell state). -/
structure SimParams where
  width : ℕ
  height : ℕ
  base_radius : ℝ
  friction : ℝ
  brownian_d : ℝ
  curvature_relax : ℝ
  radial_relax : ℝ
  protrusion_gain : ℝ
  impulse : ℝ
  ruffle_std : ℝ

/-- `Cell.__init__`: draw the per-cell base radius factor, then the two
center coordinates, in that order, from the shared stream. -/
def mkCell (V : ℕ) (p : SimParams) (g : RNG) : Cell V × RNG :=
  let base_r := p.base_radius * (0.85 + 0.3 * (g.random).1)
  ({ width := p.width, height := p.height, base_r := base_r, r := fun _ => base_r,
     vel := (0, 0),
     center := (((g.advance 1).uniform 0 p.width).1, ((g.advance 2).uniform 0 p.height).1),
     friction := p.friction, brownian_d := p.brownian_d,
     curvature_relax := p.curvature_relax, radial_relax := p.radial_relax,
     protrusion_gain := p.protrusion_gain, impulse := p.impulse,
     ruffle_std := p.ruffle_std }, g.advance 3)

/-- The population, created in order from the shared stream. -/
def mkCells (V : ℕ) [NeZero V] (p : SimParams) : ℕ → RNG → List (Cell V) × RNG
  | 0, g => ([], g)
  | Nat.succ n, g =>
    let cg := mkCell V p g
    let rest := mkCells V p n cg.2
    (cg.1 :: rest.1, rest.2)

/-- Stimulation pass of `get_frame`: every cell in population order;
an `IndexError` aborts the frame. -/
def stimList (m : Mask) : List (Cell V) → RNG → Option (List (Cell V) × RNG)
  | [], g => some ([], g)
  | c :: cs, g =>
    match c.stimulate g m with
    | none => none
    | some cg =>
      match stimList m cs cg.2 with
      | none => none
      | some csg => some (cg.1 :: csg.1, csg.2)

/-- Integration pass of `get_frame`: every cell in population order. -/
def updateList (dt : ℝ) : List (Cell V) → RNG → List (Cell V) × RNG
  | [], g => ([], g)
  | c :: cs, g =>
    let cg := c.update g dt
    let rest := updateList dt cs cg.2
    (cg.1 :: rest.1, rest.2)

/-- `itertools.combinations` index order: `(0,1), (0,2), …, (1,2), …`. -/
def pairIdx (n : ℕ) : List (ℕ × ℕ) :=
  (((List.range n).map fun i => ((List.range n).filter fun j => i < j).map fun j => (i, j))).flatten

/-- One pairwise collision, updating both slots of the population list. -/
def collideStep (cs : List (Cell V)) (pr : ℕ × ℕ) : List (Cell V) :=
  match cs.get? pr.1, cs.get? pr.2 with
  | some a, some b =>
    let ab := a.collide b
    (cs.set pr.1 ab.1).set pr.2 ab.2
  | _, _ => cs

/-- Collision pass of `get_frame`: all unordered pairs, in combination
order, each pair seeing the shifts of earlier pairs. -/
def collideAll (cs : List (Cell V)) : List (Cell V) := (pairIdx cs.length).foldl collideStep cs

/-- One `get_frame` tick on the physics state: stimulate (only when the
mask has a true pixel), update, collide.  `dt` is the wall-clock gap,
passed explicitly. -/
def frame (cs : List (Cell V)) (g : RNG) (m : Mask) (dt : ℝ) : Option (List (Cell V) × RNG) :=
  match (if m.any then stimList m cs g else some (cs, g)) with
  | none => none
  | some csg =>
    let ug := updateList dt csg.1 csg.2
    some (collideAll ug.1, ug.2)

/-- The per-tick output consumed by the renderer: centroid plus ordered
absolute vertex positions. -/
def Cell.polygonPts (c : Cell V) : (ℝ × ℝ) × (ZMod V → ℝ × ℝ) := (c.center, c.absPt)

/-- Run a sequence of ticks, collecting the cell lists after each frame;
an aborted frame ends the trace with `none`. -/
def runTrace : List (Mask × ℝ) → List (Cell V) → RNG → List (Option (List (Cell V)))
  | [], _, _ => []
  | md :: rest, cs, g =>
    match frame cs g md.1 md.2 with
    | none => [none]
    | some csg => some csg.1 :: runTrace rest csg.1 csg.2

/-- The polygon sets produced at every tick. -/
def polyTrace (inputs : List (Mask × ℝ)) (cs : List (Cell V)) (g : RNG) :
    List (Option (List ((ℝ × ℝ) × (ZMod V → ℝ × ℝ)))) :=
  (runTrace inputs cs g).map (Option.map (List.map Cell.polygonPts))

/-- A zero stream in `[0,1)`: the simplest well-formed generator. -/
def rngW : RNG := { floats := fun _ => 0, gauss := fun _ => 0, pos := 0 }

/-- A concrete four-vertex cell in a `4 × 4` field, radius `1`, centered at
`(1,1)`: its vertices `(2,1), (1,2), (0,1), (1,0)` all lie in the field. -/
def cellW : Cell 4 :=
  { width := 4, height := 4, base_r := 1, r := fun _ => 1, vel := (0, 0), center := (1, 1),
    friction := 0, brownian_d := 0, curvature_relax := 0, radial_relax := 0,
    protrusion_gain := 1 / 10, impulse := 5, ruffle_std := 1 }

/-- A second cell overlapping `cellW`, for collision tests. -/
def cellB : Cell 4 := { cellW with center := (2, 1) }

/-- The all-false field-sized mask. -/
def maskF : Mask := { h := 4, w := 4, data := fun _ _ => false }

/-- The all-true field-sized mask. -/
def maskT : Mask := { h := 4, w := 4, data := fun _ _ => true }

/-- An all-true mask strictly larger than the `4 × 4` field. -/
def mask8 : Mask := { h := 8, w := 8, data := fun _ _ => true }

/-- A mask strictly smaller than the `4 × 4` field. -/
def mask1 : Mask := { h := 1, w := 1, data := fun _ _ => false }

/-- A well-formed stream whose uniform draws are all `0.9`. -/
def rngBad : RNG := { floats := fun _ => 9 / 10, gauss := fun _ => 0, pos := 0 }

/-- Draw stream driving the frame of the radius-band counterexample:
`u₀ = 1/2` makes the base-radius factor exactly `1`, the ruffle amplitude
draw (gauss position `5`) is `10`, everything else is `0`. -/
def gC1 : RNG :=
  { floats := fun n => if n = 0 then 1 / 2 else 0,
    gauss := fun n => if n = 5 then 10 else 0, pos := 0 }

/-- Parameters of the radius-band counterexample: a single four-vertex
cell, unit base radius, relaxation switched off. -/
def pC1 : SimParams :=
  { width := 4, height := 4, base_radius := 1, friction := 0, brownian_d := 0,
    curvature_relax := 0, radial_relax := 0, protrusion_gain := 1 / 10,
    impulse := 5, ruffle_std := 1 }

/-- The single-cell population of the radius-band counterexample. -/
def simC1 : List (Cell 4) × RNG := mkCells 4 pC1 1 gC1

/-- The one cell of `simC1`. -/
def cellC1 : Cell 4 := (mkCell 4 pC1 gC1).1

/-- Generator state after the population is built (three draws). -/
def gC1b : RNG := gC1.advance 3

/-- `cellC1` after the pre-rescale stages of its first update. -/
def cellM : Cell 4 := cellC1.updateMid gC1b 1

/-- `cellC1` after its first full update. -/
def cellU : Cell 4 := (cellC1.update gC1b 1).1

lemma fmod_nonneg {x L : ℝ} (hL : 0 < L) : 0 ≤ fmod x L := by
  have h : (⌊x / L⌋ : ℝ) ≤ x / L := Int.floor_le _
  have := mul_le_mul_of_nonneg_left h hL.le
  rw [mul_div_cancel₀ _ hL.ne'] at this
  simpa [fmod] using this

lemma fmod_lt {x L : ℝ} (hL : 0 < L) : fmod x L < L := by
  have h : x / L < ⌊x / L⌋ + 1 := Int.lt_floor_add_one _
  have := mul_lt_mul_of_pos_left h hL
  rw [mul_div_cancel₀ _ hL.ne'] at this
  unfold fmod
  nlinarith

lemma fmod_eq_self {x L : ℝ} (h0 : 0 ≤ x) (hx : x < L) : fmod x L = x := by
  have hL : 0 < L := lt_of_le_of_lt h0 hx
  have : ⌊x / L⌋ = 0 := by
    rw [Int.floor_eq_zero_iff]
    constructor
    · exact div_nonneg h0 hL.le
    · rw [div_lt_one hL]; exact hx
  simp [fmod, this]

lemma conserve_center (c : Cell V) : (c.conserve_area).center = c.center := by
  unfold Cell.conserve_area; split_ifs <;> rfl

lemma conserve_vel (c : Cell V) : (c.conserve_area).vel = c.vel := by
  unfold Cell.conserve_area; split_ifs <;> rfl

lemma conserve_base_r (c : Cell V) : (c.conserve_area).base_r = c.base_r := by
  unfold Cell.conserve_area; split_ifs <;> rfl

lemma conserve_r_of_ne (c : Cell V) (h : polygon_area c.absPt ≠ 0) :
    (c.conserve_area).r =
      fun i => c.r i * Real.sqrt (π * c.base_r ^ 2 / |polygon_area c.absPt|) := by
  unfold Cell.conserve_area
  rw [if_neg (by simpa using h)]

lemma sum_shift (f : ZMod V → ℝ) : ∑ i, f (i + 1) = ∑ i, f i :=
  Fintype.sum_equiv (Equiv.addRight (1 : ZMod V)) _ _ fun _ => rfl

lemma polygon_area_translate (a b : ℝ) (q : ZMod V → ℝ × ℝ) :
    polygon_area (fun i => (a + (q i).1, b + (q i).2)) = polygon_area q := by
  unfold polygon_area
  dsimp only
  have e1 : ∀ i : ZMod V, (a + (q i).1) * (b + (q (i + 1)).2)
      = a * b + a * (q (i + 1)).2 + (q i).1 * b + (q i).1 * (q (i + 1)).2 := fun i => by ring
  have e2 : ∀ i : ZMod V, (b + (q i).2) * (a + (q (i + 1)).1)
      = a * b + b * (q (i + 1)).1 + (q i).2 * a + (q i).2 * (q (i + 1)).1 := fun i => by ring
  simp only [e1, e2, Finset.sum_add_distrib, ← Finset.mul_sum, ← Finset.sum_mul]
  rw [sum_shift (fun i => (q i).2), sum_shift (fun i => (q i).1)]
  ring

lemma polygon_area_smul (s : ℝ) (q : ZMod V → ℝ × ℝ) :
    polygon_area (fun i => (s * (q i).1, s * (q i).2)) = s ^ 2 * polygon_area q := by
  unfold polygon_area
  dsimp only
  have e1 : ∀ i : ZMod V, s * (q i).1 * (s * (q (i + 1)).2)
      = s ^ 2 * ((q i).1 * (q (i + 1)).2) := fun i => by ring
  have e2 : ∀ i : ZMod V, s * (q i).2 * (s * (q (i + 1)).1)
      = s ^ 2 * ((q i).2 * (q (i + 1)).1) := fun i => by ring
  simp only [e1, e2, ← Finset.mul_sum]
  ring

lemma polygon_area_abs_rel (c : Cell V) : polygon_area c.absPt = polygon_area c.relPt :=
  polygon_area_translate c.center.1 c.center.2 c.relPt

lemma val_add_one (i : ZMod V) :
    ((i + 1 : ZMod V)).val = if i.val + 1 = V then 0 else i.val + 1 := by
  have hV : 0 < V := Nat.pos_of_ne_zero (NeZero.ne V)
  rcases Nat.lt_or_ge 1 V with hV2 | hV1
  · haveI : Fact (1 < V) := ⟨hV2⟩
    rw [ZMod.val_add, ZMod.val_one]
    by_cases h : i.val + 1 = V
    · rw [if_pos h, h, Nat.mod_self]
    · rw [if_neg h]
      exact Nat.mod_eq_of_lt (lt_of_le_of_ne (Nat.succ_le_of_lt i.val_lt) h)
  · interval_cases V
    have h0 : ∀ j : ZMod 1, j.val = 0 := fun j => Nat.lt_one_iff.mp j.val_lt
    rw [h0, h0, if_pos rfl]

lemma sin_angle_sub (i : ZMod V) :
    Real.sin (angle V (i + 1) - angle V i) = Real.sin (2 * π / V) := by
  have hV0 : (V : ℝ) ≠ 0 := Nat.cast_ne_zero.mpr (NeZero.ne V)
  unfold angle
  rw [val_add_one]
  by_cases h : i.val + 1 = V
  · rw [if_pos h]
    have hv : (i.val : ℝ) = (V : ℝ) - 1 := by
      have : ((i.val : ℕ) : ℝ) + 1 = V := by exact_mod_cast congrArg (Nat.cast (R := ℝ)) h
      linarith
    have e : 2 * π * ((0 : ℕ) : ℝ) / V - 2 * π * (i.val : ℝ) / V = 2 * π / V - 2 * π := by
      rw [hv]
      field_simp
      ring
    rw [e, Real.sin_sub_two_pi]
  · rw [if_neg h]
    have e : 2 * π * ((i.val + 1 : ℕ) : ℝ) / V - 2 * π * (i.val : ℝ) / V = 2 * π / V := by
      push_cast
      field_simp
      ring
    rw [e]

lemma polygon_area_rel_formula (c : Cell V) :
    polygon_area c.relPt = 2⁻¹ * Real.sin (2 * π / V) * ∑ i, c.r i * c.r (i + 1) := by
  unfold polygon_area
  rw [← Finset.sum_sub_distrib]
  have e : ∀ i : ZMod V,
      (c.relPt i).1 * (c.relPt (i + 1)).2 - (c.relPt i).2 * (c.relPt (i + 1)).1
        = c.r i * c.r (i + 1) * Real.sin (2 * π / V) := by
    intro i
    rw [← sin_angle_sub i, Real.sin_sub]
    unfold Cell.relPt
    dsimp only
    ring
  rw [Finset.sum_congr rfl fun i _ => e i, ← Finset.sum_mul]
  ring

lemma polygon_area_pos (c : Cell V) (hV : 3 ≤ V) (hr : ∀ i, 0 < c.r i) :
    0 < polygon_area c.absPt := by
  rw [polygon_area_abs_rel, polygon_area_rel_formula]
  have hVpos : (0 : ℝ) < V := by exact_mod_cast Nat.lt_of_lt_of_le (by norm_num) hV
  have hV3 : (3 : ℝ) ≤ V := by exact_mod_cast hV
  have hsin : 0 < Real.sin (2 * π / V) := by
    apply Real.sin_pos_of_pos_of_lt_pi
    · positivity
    · rw [div_lt_iff hVpos]
      nlinarith [Real.pi_pos]
  have hsum : 0 < ∑ i, c.r i * c.r (i + 1) :=
    Finset.sum_pos (fun i _ => mul_pos (hr i) (hr (i + 1))) Finset.univ_nonempty
  positivity

lemma conserve_area_exact (c : Cell V) (hA : polygon_area c.absPt ≠ 0) :
    |polygon_area (c.conserve_area).absPt| = π * c.base_r ^ 2 := by
  set s : ℝ := Real.sqrt (π * c.base_r ^ 2 / |polygon_area c.absPt|) with hs
  set q : ZMod V → ℝ × ℝ := fun i => (s * (c.relPt i).1, s * (c.relPt i).2) with hq
  have habs : Cell.absPt (c.conserve_area)
      = fun i => (c.center.1 + (q i).1, c.center.2 + (q i).2) := by
    funext i
    simp only [hq]
    unfold Cell.absPt Cell.relPt
    rw [conserve_center, conserve_r_of_ne c hA, ← hs]
    dsimp only
    rw [Prod.mk.injEq]
    constructor <;> ring
  have ht : polygon_area (fun i => (c.center.1 + (q i).1, c.center.2 + (q i).2))
      = polygon_area q := polygon_area_translate c.center.1 c.center.2 q
  have hm : polygon_area q = s ^ 2 * polygon_area c.relPt := by
    rw [hq]; exact polygon_area_smul s c.relPt
  have hnn : 0 ≤ π * c.base_r ^ 2 / |polygon_area c.absPt| :=
    div_nonneg (by positivity) (abs_nonneg _)
  rw [habs, ht, hm, ← polygon_area_abs_rel, abs_mul,
    abs_of_nonneg (sq_nonneg s), hs, Real.sq_sqrt hnn,
    div_mul_cancel₀ _ (abs_ne_zero.mpr hA)]

lemma conserve_area_of_pos (c : Cell V) (hV : 3 ≤ V) (hr : ∀ i, 0 < c.r i) :
    |polygon_area (c.conserve_area).absPt| = π * c.base_r ^ 2 :=
  conserve_area_exact c (ne_of_gt (polygon_area_pos c hV hr))

lemma clip_pos {x lo hi : ℝ} (hlo : 0 < lo) (hhi : 0 < hi) : 0 < clip x lo hi :=
  lt_min (lt_of_lt_of_le hlo (le_max_right x lo)) hhi

lemma clampR_mem (c : Cell V) (hb : 0 ≤ c.base_r) (r0 : ZMod V → ℝ) (i : ZMod V) :
    0.4 * c.base_r ≤ c.clampR r0 i ∧ c.clampR r0 i ≤ 2.2 * c.base_r := by
  unfold Cell.clampR clip
  constructor
  · exact le_min (le_max_right _ _) (by nlinarith)
  · exact min_le_right _ _

lemma clampR_pos (c : Cell V) (hb : 0 < c.base_r) (r0 : ZMod V → ℝ) (i : ZMod V) :
    0 < c.clampR r0 i :=
  clip_pos (by nlinarith) (by nlinarith)

lemma zmod4_cases (i : ZMod 4) : i = 0 ∨ i = 1 ∨ i = 2 ∨ i = 3 := by
  revert i; decide

lemma sum_zmod4 (f : ZMod 4 → ℝ) : ∑ i, f i = f 0 + f 1 + f 2 + f 3 := by
  rw [show (Finset.univ : Finset (ZMod 4)) = insert 0 (insert 1 (insert 2 {3})) from by decide,
    Finset.sum_insert (by decide), Finset.sum_insert (by decide),
    Finset.sum_insert (by decide), Finset.sum_singleton]
  ring

lemma angle4_0 : angle 4 (0 : ZMod 4) = 0 := by
  unfold angle
  rw [show (0 : ZMod 4).val = 0 from by decide]
  norm_num

lemma angle4_1 : angle 4 (1 : ZMod 4) = π / 2 := by
  unfold angle
  rw [show (1 : ZMod 4).val = 1 from by decide]
  push_cast
  ring

lemma angle4_2 : angle 4 (2 : ZMod 4) = π := by
  unfold angle
  rw [show (2 : ZMod 4).val = 2 from by decide]
  push_cast
  ring

lemma angle4_3 : angle 4 (3 : ZMod 4) = 3 * π / 2 := by
  unfold angle
  rw [show (3 : ZMod 4).val = 3 from by decide]
  push_cast
  ring

lemma cos_three_halves_pi : Real.cos (3 * π / 2) = 0 := by
  rw [show 3 * π / 2 = π + π / 2 from by ring, Real.cos_add, Real.cos_pi_div_two,
    Real.sin_pi_div_two, Real.cos_pi, Real.sin_pi]
  ring

lemma sin_three_halves_pi : Real.sin (3 * π / 2) = -1 := by
  rw [show 3 * π / 2 = π + π / 2 from by ring, Real.sin_add, Real.cos_pi_div_two,
    Real.sin_pi_div_two, Real.cos_pi, Real.sin_pi]
  ring

lemma cellW_vpos_0 : cellW.vpos 0 = (2, 1) := by
  unfold Cell.vpos
  rw [Prod.mk.injEq]
  constructor <;> simp [cellW, angle4_0] <;> norm_num

lemma cellW_vpos_1 : cellW.vpos 1 = (1, 2) := by
  unfold Cell.vpos
  rw [Prod.mk.injEq]
  constructor <;> simp [cellW, angle4_1] <;> norm_num

lemma cellW_vpos_2 : cellW.vpos 2 = (0, 1) := by
  unfold Cell.vpos
  rw [Prod.mk.injEq]
  constructor <;> simp [cellW, angle4_2] <;> norm_num

lemma cellW_vpos_3 : cellW.vpos 3 = (1, 0) := by
  unfold Cell.vpos
  rw [Prod.mk.injEq]
  constructor <;> simp [cellW, angle4_3, cos_three_halves_pi, sin_three_halves_pi] <;> norm_num

lemma cellW_inside_0 : cellW.vInside 0 := by
  unfold Cell.vInside
  rw [cellW_vpos_0]
  norm_num [cellW]

lemma cellW_pix : cellW.pix 0 = (1, 2) ∧ cellW.pix 1 = (2, 1) ∧ cellW.pix 2 = (1, 0)
    ∧ cellW.pix 3 = (0, 1) := by
  refine ⟨?_, ?_, ?_, ?_⟩ <;> unfold Cell.pix <;>
    simp [cellW_vpos_0, cellW_vpos_1, cellW_vpos_2, cellW_vpos_3]

lemma cellW_inside_all (i : ZMod 4) : cellW.vInside i := by
  rcases zmod4_cases i with h | h | h | h <;> subst h <;> unfold Cell.vInside <;>
    [rw [cellW_vpos_0]; rw [cellW_vpos_1]; rw [cellW_vpos_2]; rw [cellW_vpos_3]] <;>
    norm_num [cellW]

lemma vInside_vInBounds (c : Cell V) (m : Mask) (hh : c.height ≤ m.h) (hw : c.width ≤ m.w)
    (i : ZMod V) (hi : c.vInside i) : c.vInBounds m i := by
  obtain ⟨hx0, hx1, hy0, hy1⟩ := hi
  have hhp : c.height ≠ 0 := by
    intro h0
    rw [h0] at hy1
    simp only [Nat.cast_zero] at hy1
    linarith
  have hwp : c.width ≠ 0 := by
    intro h0
    rw [h0] at hx1
    simp only [Nat.cast_zero] at hx1
    linarith
  constructor
  · have h1 : ⌊(c.vpos i).2⌋ < (c.height : ℤ) := Int.floor_lt.mpr (by exact_mod_cast hy1)
    have h2 : ⌊(c.vpos i).2⌋.toNat < c.height := (Int.toNat_lt' hhp).mpr h1
    exact Nat.lt_of_lt_of_le h2 hh
  · have h1 : ⌊(c.vpos i).1⌋ < (c.width : ℤ) := Int.floor_lt.mpr (by exact_mod_cast hx1)
    have h2 : ⌊(c.vpos i).1⌋.toNat < c.width := (Int.toNat_lt' hwp).mpr h1
    exact Nat.lt_of_lt_of_le h2 hw

lemma stimulate_some_of_mask_ge (c : Cell V) (g : RNG) (m : Mask)
    (hh : c.height ≤ m.h) (hw : c.width ≤ m.w) : ∃ out, c.stimulate g m = some out := by
  unfold Cell.stimulate
  by_cases h1 : ∃ i, c.vInside i
  · rw [if_neg (not_not_intro h1),
      if_neg (by push_neg; exact fun i hi => vInside_vInBounds c m hh hw i hi)]
    by_cases h3 : ∃ i, c.vHit m i
    · rw [if_neg (not_not_intro h3)]
      exact ⟨_, rfl⟩
    · rw [if_pos h3]
      exact ⟨(c, g), rfl⟩
  · rw [if_pos h1]
    exact ⟨(c, g), rfl⟩

lemma cellW_vInBounds_all {m : Mask} (hh : 4 ≤ m.h) (hw : 4 ≤ m.w) (i : ZMod 4) :
    cellW.vInBounds m i := by
  obtain ⟨p0, p1, p2, p3⟩ := cellW_pix
  rcases zmod4_cases i with h | h | h | h <;> subst h <;> unfold Cell.vInBounds <;>
    [rw [p0]; rw [p1]; rw [p2]; rw [p3]] <;> exact ⟨by omega, by omega⟩

lemma cellW_hit_T : cellW.vHit maskT 0 := by
  unfold Cell.vHit
  exact ⟨cellW_inside_0, by simp [maskT]⟩

/-- C6 (amended): the code performs no mask-dimension check.  `stimulate`
fails only through out-of-bounds indexing, which cannot happen when the
mask is at least as large as the field; in particular any oversized
(mismatched) mask is silently accepted. -/
theorem C6_no_dimension_check (c : Cell V) (g : RNG) (m : Mask)
    (hh : c.height ≤ m.h) (hw : c.width ≤ m.w) : ∃ out, c.stimulate g m = some out :=
  stimulate_some_of_mask_ge c g m hh hw

/-- C6 witness: the oversized all-true `8 × 8` mask on the `4 × 4` field is
processed without rejection. -/
theorem C6_witness : cellW.height ≤ mask8.h ∧ cellW.width ≤ mask8.w ∧
    ∃ out, cellW.stimulate rngW mask8 = some out :=
  ⟨by norm_num [cellW, mask8], by norm_num [cellW, mask8],
    C6_no_dimension_check cellW rngW mask8 (by norm_num [cellW, mask8])
      (by norm_num [cellW, mask8])⟩

/-- C6 counterexample: an `8 × 8` mask mismatches the `4 × 4` field, yet
`stimulate` succeeds instead of rejecting the call. -/
theorem C6_counterexample :
    (mask8.h ≠ cellW.height ∨ mask8.w ≠ cellW.width) ∧
    ∃ out, cellW.stimulate rngW mask8 = some out :=
  ⟨Or.inl (by norm_num [cellW, mask8]),
    stimulate_some_of_mask_ge cellW rngW mask8 (by norm_num [cellW, mask8])
      (by norm_num [cellW, mask8])⟩

lemma stimulate_noop_aux (c : Cell V) (g : RNG) (m : Mask)
    (hb : ∀ i, c.vInside i → c.vInBounds m i)
    (h : (¬ ∃ i, c.vInside i) ∨ ¬ ∃ i, c.vHit m i) :
    c.stimulate g m = some (c, g) := by
  unfold Cell.stimulate
  by_cases h1 : ∃ i, c.vInside i
  · rw [if_neg (not_not_intro h1), if_neg (by push_neg; exact fun i hi => hb i hi)]
    rcases h with h | h
    · exact absurd h1 h
    · rw [if_pos h]
  · rw [if_pos h1]

/-- C4 (amended): if no vertex lies inside the field, or no retained vertex
hits a true pixel, `stimulate` returns immediately with the cell and the
RNG unchanged — provided every retained vertex's pixel is a valid mask
index (always true for a field-sized mask); an undersized mask can instead
raise an indexing error. -/
theorem C4_stimulate_noop (c : Cell V) (g : RNG) (m : Mask)
    (hb : ∀ i, c.vInside i → c.vInBounds m i)
    (h : (¬ ∃ i, c.vInside i) ∨ ¬ ∃ i, c.vHit m i) :
    c.stimulate g m = some (c, g) :=
  stimulate_noop_aux c g m hb h

/-- C4 witness: on the all-false field-sized mask, `stimulate` leaves
`cellW` and the generator untouched. -/
theorem C4_witness :
    (∀ i, cellW.vInside i → cellW.vInBounds maskF i) ∧ (¬ ∃ i, cellW.vHit maskF i) ∧
    cellW.stimulate rngW maskF = some (cellW, rngW) := by
  have hb : ∀ i, cellW.vInside i → cellW.vInBounds maskF i := fun i _ =>
    cellW_vInBounds_all (by norm_num [maskF]) (by norm_num [maskF]) i
  have hnh : ¬ ∃ i, cellW.vHit maskF i := by simp [Cell.vHit, maskF]
  exact ⟨hb, hnh, C4_stimulate_noop cellW rngW maskF hb (Or.inr hnh)⟩

/-- C4 counterexample: with an undersized `1 × 1` mask no retained vertex
lands on a true pixel, yet `stimulate` raises an indexing error rather
than returning unchanged. -/
theorem C4_counterexample :
    (¬ ∃ i, cellW.vHit mask1 i) ∧ cellW.stimulate rngW mask1 = none := by
  refine ⟨by simp [Cell.vHit, mask1], ?_⟩
  unfold Cell.stimulate
  rw [if_neg (not_not_intro ⟨0, cellW_inside_0⟩), if_pos ?_]
  refine ⟨0, cellW_inside_0, ?_⟩
  obtain ⟨p0, _⟩ := cellW_pix
  unfold Cell.vInBounds
  rw [p0]
  simp [mask1]

/-- C10: `stimulate` never consults the shared generator — whatever branch
is taken (including the protrusion branch), the returned RNG state is the
input state, so a tick's random draws all happen in `update`. -/
theorem C10_stimulate_rng (c : Cell V) (g : RNG) (m : Mask) (out : Cell V × RNG)
    (h : c.stimulate g m = some out) : out.2 = g := by
  unfold Cell.stimulate at h
  split_ifs at h <;>
    first
    | exact Option.noConfusion h
    | (cases Option.some.inj h; rfl)

/-- C10 witness: on the all-true field-sized mask the protrusion branch
runs, and the generator still comes back unchanged. -/
theorem C10_witness : ∃ out, cellW.stimulate rngW maskT = some out ∧ out.2 = rngW := by
  have hsome : ∃ out, cellW.stimulate rngW maskT = some out := by
    unfold Cell.stimulate
    rw [if_neg (not_not_intro ⟨0, cellW_inside_0⟩),
      if_neg (by
        push_neg
        exact fun i hi => cellW_vInBounds_all (by norm_num [maskT]) (by norm_num [maskT]) i),
      if_neg (not_not_intro ⟨0, cellW_hit_T⟩)]
    exact ⟨_, rfl⟩
  obtain ⟨out, hout⟩ := hsome
  exact ⟨out, hout, C10_stimulate_rng cellW rngW maskT out hout⟩

lemma update_center_eq (c : Cell V) (g : RNG) (dt : ℝ) :
    ((c.update g dt).1).center = (c.updateMid g dt).center := by
  unfold Cell.update
  exact conserve_center _

lemma update_vel_eq (c : Cell V) (g : RNG) (dt : ℝ) :
    ((c.update g dt).1).vel = (c.updateMid g dt).vel := by
  unfold Cell.update
  exact conserve_vel _

lemma update_base_r_eq (c : Cell V) (g : RNG) (dt : ℝ) :
    ((c.update g dt).1).base_r = c.base_r := by
  unfold Cell.update
  rw [conserve_base_r]
  rfl

/-- C8: the toroidal wrap returns a coordinate in `[0, L)` for every real
input and positive axis length; consequently the center set by `update`
and the centers set by the push branch of `collide` lie inside the field. -/
theorem C8_wrap_bounds (c c2 : Cell V) (g : RNG) (dt : ℝ)
    (hw : 0 < c.width) (hh : 0 < c.height) :
    (∀ (x : ℝ) (L : ℕ), 0 < L → 0 ≤ fmod x L ∧ fmod x L < L) ∧
    (0 ≤ ((c.update g dt).1).center.1 ∧ ((c.update g dt).1).center.1 < c.width ∧
      0 ≤ ((c.update g dt).1).center.2 ∧ ((c.update g dt).1).center.2 < c.height) ∧
    (Cell.cdist c c2 ≠ 0 → 0 < Cell.overlap c c2 → 0 < c2.width → 0 < c2.height →
      (0 ≤ ((c.collide c2).1).center.1 ∧ ((c.collide c2).1).center.1 < c.width ∧
        0 ≤ ((c.collide c2).1).center.2 ∧ ((c.collide c2).1).center.2 < c.height) ∧
      (0 ≤ ((c.collide c2).2).center.1 ∧ ((c.collide c2).2).center.1 < c2.width ∧
        0 ≤ ((c.collide c2).2).center.2 ∧ ((c.collide c2).2).center.2 < c2.height)) := by
  have hwR : (0 : ℝ) < c.width := by exact_mod_cast hw
  have hhR : (0 : ℝ) < c.height := by exact_mod_cast hh
  have hbasic : ∀ (x : ℝ) (L : ℕ), 0 < L → 0 ≤ fmod x L ∧ fmod x L < L := by
    intro x L hL
    have hLR : (0 : ℝ) < L := by exact_mod_cast hL
    exact ⟨fmod_nonneg hLR, fmod_lt hLR⟩
  refine ⟨hbasic, ?_, ?_⟩
  · rw [update_center_eq]
    unfold Cell.updateMid wrap
    dsimp only
    exact ⟨fmod_nonneg hwR, fmod_lt hwR, fmod_nonneg hhR, fmod_lt hhR⟩
  · intro hd ho hw2 hh2
    have hw2R : (0 : ℝ) < c2.width := by exact_mod_cast hw2
    have hh2R : (0 : ℝ) < c2.height := by exact_mod_cast hh2
    unfold Cell.collide
    rw [if_neg hd, if_neg (not_le.mpr ho)]
    dsimp only
    unfold wrap
    exact ⟨⟨fmod_nonneg hwR, fmod_lt hwR, fmod_nonneg hhR, fmod_lt hhR⟩,
      ⟨fmod_nonneg hw2R, fmod_lt hw2R, fmod_nonneg hh2R, fmod_lt hh2R⟩⟩

/-- C8 witness: the wrap of a negative coordinate is nonnegative, and a
concrete updated cell's center lies in the field. -/
theorem C8_witness :
    (0 ≤ fmod (-7 / 2) ((2 : ℕ) : ℝ) ∧ fmod (-7 / 2) ((2 : ℕ) : ℝ) < ((2 : ℕ) : ℝ)) ∧
    0 ≤ ((cellW.update rngW 1).1).center.1 ∧ ((cellW.update rngW 1).1).center.1 < cellW.width := by
  obtain ⟨hA, hB, _⟩ := C8_wrap_bounds cellW cellB rngW 1 (by norm_num [cellW]) (by norm_num [cellW])
  exact ⟨hA (-7 / 2) 2 (by norm_num), hB.1, hB.2.1⟩

/-- C9: with `dt = 0` the Brownian amplitude is exactly zero, and `update`
leaves both the center (already inside the field) and the velocity
unchanged, with no division performed anywhere on the path. -/
theorem C9_dt_zero (c : Cell V) (g : RNG)
    (h1 : 0 ≤ c.center.1) (h2 : c.center.1 < c.width)
    (h3 : 0 ≤ c.center.2) (h4 : c.center.2 < c.height) :
    (g.normalvariate 0 (Real.sqrt (2 * c.brownian_d * 0))).1 = 0 ∧
    ((c.update g 0).1).center = c.center ∧ ((c.update g 0).1).vel = c.vel := by
  have hamp : (g.normalvariate 0 (Real.sqrt (2 * c.brownian_d * 0))).1 = 0 := by
    unfold RNG.normalvariate
    dsimp only
    rw [mul_zero, Real.sqrt_zero]
    ring
  refine ⟨hamp, ?_, ?_⟩
  · rw [update_center_eq]
    unfold Cell.updateMid
    dsimp only
    rw [hamp]
    unfold wrap
    dsimp only
    rw [show c.center.1 + (c.vel.1 + 0 * Real.cos (((g.advance 1).uniform 0 (2 * π)).1)) * 0
        = c.center.1 from by ring,
      show c.center.2 + (c.vel.2 + 0 * Real.sin (((g.advance 1).uniform 0 (2 * π)).1)) * 0
        = c.center.2 from by ring,
      fmod_eq_self h1 h2, fmod_eq_self h3 h4]
  · rw [update_vel_eq]
    unfold Cell.updateMid
    dsimp only
    rw [hamp]
    rw [show (1 : ℝ) - c.friction * 0 = 1 from by ring, max_eq_right zero_le_one]
    rw [show c.vel.1 + 0 * Real.cos (((g.advance 1).uniform 0 (2 * π)).1) = c.vel.1 from by ring,
      show c.vel.2 + 0 * Real.sin (((g.advance 1).uniform 0 (2 * π)).1) = c.vel.2 from by ring]
    simp

/-- C9 witness: the concrete cell at `(1,1)` in the `4 × 4` field is fixed
by a zero-`dt` update. -/
theorem C9_witness :
    ((cellW.update rngW 0).1).center = cellW.center ∧ ((cellW.update rngW 0).1).vel = cellW.vel := by
  have h := C9_dt_zero cellW rngW (by norm_num [cellW]) (by norm_num [cellW])
    (by norm_num [cellW]) (by norm_num [cellW])
  exact ⟨h.2.1, h.2.2⟩

/-- C5: `collide` has no effect when the minimum-image distance is zero or
the overlap is nonpositive; otherwise it moves each center by
`0.5 * (overlap + 0.5)` along the unit displacement (in opposite
directions), re-wraps both centers, zeroes both velocities and leaves the
radii untouched. -/
theorem C5_collide (c1 c2 : Cell V) :
    ((Cell.cdist c1 c2 = 0 ∨ Cell.overlap c1 c2 ≤ 0) → c1.collide c2 = (c1, c2)) ∧
    (Cell.cdist c1 c2 ≠ 0 → 0 < Cell.overlap c1 c2 →
      (c1.collide c2).1.center = wrap
          (c1.center.1 - 0.5 * (Cell.overlap c1 c2 + 0.5) * ((Cell.dvec c1 c2).1 / Cell.cdist c1 c2),
           c1.center.2 - 0.5 * (Cell.overlap c1 c2 + 0.5) * ((Cell.dvec c1 c2).2 / Cell.cdist c1 c2))
          c1.width c1.height ∧
      (c1.collide c2).2.center = wrap
          (c2.center.1 + 0.5 * (Cell.overlap c1 c2 + 0.5) * ((Cell.dvec c1 c2).1 / Cell.cdist c1 c2),
           c2.center.2 + 0.5 * (Cell.overlap c1 c2 + 0.5) * ((Cell.dvec c1 c2).2 / Cell.cdist c1 c2))
          c2.width c2.height ∧
      (c1.collide c2).1.vel = (0, 0) ∧ (c1.collide c2).2.vel = (0, 0) ∧
      (c1.collide c2).1.r = c1.r ∧ (c1.collide c2).2.r = c2.r ∧
      (c1.collide c2).1.base_r = c1.base_r ∧ (c1.collide c2).2.base_r = c2.base_r) := by
  constructor
  · intro h
    unfold Cell.collide
    rcases h with h | h
    · rw [if_pos h]
    · by_cases hd : Cell.cdist c1 c2 = 0
      · rw [if_pos hd]
      · rw [if_neg hd, if_pos h]
  · intro hd ho
    unfold Cell.collide
    rw [if_neg hd, if_neg (not_le.mpr ho)]
    exact ⟨rfl, rfl, rfl, rfl, rfl, rfl, rfl, rfl⟩

lemma pyRound_quarter : pyRound (1 / 4 : ℝ) = 0 := by
  unfold pyRound
  have hf : ⌊(1 / 4 : ℝ)⌋ = 0 := by
    rw [Int.floor_eq_iff]
    norm_num
  rw [if_neg (by unfold Int.fract; rw [hf]; norm_num)]
  rw [round_eq]
  rw [show (1 / 4 : ℝ) + 1 / 2 = 3 / 4 from by norm_num]
  rw [Int.floor_eq_iff]
  norm_num

lemma pyRound_zero : pyRound (0 : ℝ) = 0 := by
  unfold pyRound
  rw [if_neg (by rw [Int.fract_zero]; norm_num)]
  simp

lemma dvec_WB : Cell.dvec cellW cellB = (1, 0) := by
  unfold Cell.dvec
  rw [Prod.mk.injEq]
  constructor
  · rw [show cellB.center.1 - cellW.center.1 = 1 from by norm_num [cellW, cellB]]
    rw [show ((1 : ℝ) / (cellW.width : ℝ)) = 1 / 4 from by norm_num [cellW]]
    rw [pyRound_quarter]
    norm_num
  · rw [show cellB.center.2 - cellW.center.2 = 0 from by norm_num [cellW, cellB]]
    rw [show ((0 : ℝ) / (cellW.height : ℝ)) = 0 from by norm_num [cellW]]
    rw [pyRound_zero]
    norm_num

lemma cdist_WB : Cell.cdist cellW cellB = 1 := by
  unfold Cell.cdist
  rw [dvec_WB]
  norm_num

lemma maxR_cellW : cellW.maxR = 1 := by
  unfold Cell.maxR
  simp [cellW, Finset.sup'_const]

lemma maxR_cellB : cellB.maxR = 1 := by
  unfold Cell.maxR
  simp [cellB, cellW, Finset.sup'_const]

lemma overlap_WB : Cell.overlap cellW cellB = 1 := by
  unfold Cell.overlap
  rw [cdist_WB, maxR_cellW, maxR_cellB]
  norm_num

/-- C5 witness: the overlapping pair `cellW`, `cellB` takes the push
branch, which wraps the shifted centers and zeroes both velocities. -/
theorem C5_witness :
    Cell.cdist cellW cellB ≠ 0 ∧ 0 < Cell.overlap cellW cellB ∧
    (cellW.collide cellB).1.vel = (0, 0) ∧ (cellW.collide cellB).2.vel = (0, 0) ∧
    (cellW.collide cellB).1.r = cellW.r := by
  have hd : Cell.cdist cellW cellB ≠ 0 := by rw [cdist_WB]; norm_num
  have ho : (0 : ℝ) < Cell.overlap cellW cellB := by rw [overlap_WB]; norm_num
  have h := (C5_collide cellW cellB).2 hd ho
  exact ⟨hd, ho, h.2.2.1, h.2.2.2.1, h.2.2.2.2.1⟩

lemma updateMid_r_pos (c : Cell V) (g : RNG) (dt : ℝ) (hb : 0 < c.base_r) (i : ZMod V) :
    0 < (c.updateMid g dt).r i := by
  unfold Cell.updateMid
  dsimp only
  exact clampR_pos c hb _ i

lemma collide_area_fst (c1 c2 : Cell V) :
    polygon_area (Cell.absPt ((c1.collide c2).1)) = polygon_area c1.absPt := by
  unfold Cell.collide
  split_ifs
  · rfl
  · rfl
  · dsimp only
    rw [polygon_area_abs_rel, polygon_area_abs_rel]
    rfl

lemma collide_area_snd (c1 c2 : Cell V) :
    polygon_area (Cell.absPt ((c1.collide c2).2)) = polygon_area c2.absPt := by
  unfold Cell.collide
  split_ifs
  · rfl
  · rfl
  · dsimp only
    rw [polygon_area_abs_rel, polygon_area_abs_rel]
    rfl

/-- C2 (amended): every `update`, and every `stimulate` that actually
protrudes, ends in the area rescale, which restores the absolute shoelace
area to `targetArea = π * baseRadius ^ 2` exactly (given at least three
vertices and a positive base radius); `collide` only translates centers,
which leaves both polygon areas unchanged.  A `stimulate` that hits
nothing skips the rescale, so the property does not hold after arbitrary
call sequences (see the counterexample). -/
theorem C2_area_conservation (c : Cell V) (g : RNG) (dt : ℝ) (m : Mask) (c2 : Cell V)
    (hV : 3 ≤ V) (hb : 0 < c.base_r) :
    |polygon_area (Cell.absPt ((c.update g dt).1))| = π * c.base_r ^ 2 ∧
    (∀ out, c.stimulate g m = some out → (∃ i, c.vHit m i) →
      |polygon_area (Cell.absPt out.1)| = π * c.base_r ^ 2) ∧
    polygon_area (Cell.absPt ((c.collide c2).1)) = polygon_area c.absPt ∧
    polygon_area (Cell.absPt ((c.collide c2).2)) = polygon_area c2.absPt := by
  refine ⟨?_, ?_, collide_area_fst c c2, collide_area_snd c c2⟩
  · unfold Cell.update
    dsimp only
    exact conserve_area_of_pos (c.updateMid g dt) hV (fun i => updateMid_r_pos c g dt hb i)
  · intro out hout hhit
    unfold Cell.stimulate at hout
    rw [if_neg (not_not_intro (hhit.elim fun i hi => ⟨i, hi.1⟩))] at hout
    by_cases hb2 : ∃ i, c.vInside i ∧ ¬ c.vInBounds m i
    · rw [if_pos hb2] at hout
      exact Option.noConfusion hout
    · rw [if_neg hb2, if_neg (not_not_intro hhit)] at hout
      cases Option.some.inj hout
      exact conserve_area_of_pos
        { c with r := c.clampR fun i => if c.vHit m i then c.r i + c.protrusion_gain * c.base_r else c.r i }
        hV (fun i => by dsimp only; exact clampR_pos c hb _ i)

/-- C2 witness: a concrete update of the four-vertex unit cell restores
its area to `π` exactly. -/
theorem C2_witness :
    (3 ≤ 4) ∧ 0 < cellW.base_r ∧
    |polygon_area (Cell.absPt ((cellW.update rngW 1).1))| = π * cellW.base_r ^ 2 :=
  ⟨by norm_num, by norm_num [cellW],
    (C2_area_conservation cellW rngW 1 maskF cellB (by norm_num) (by norm_num [cellW])).1⟩

lemma cellW_area : polygon_area cellW.absPt = 2 := by
  rw [polygon_area_abs_rel, polygon_area_rel_formula]
  rw [show 2 * π / ((4 : ℕ) : ℝ) = π / 2 from by push_cast; ring, Real.sin_pi_div_two]
  rw [sum_zmod4 (fun i => cellW.r i * cellW.r (i + 1))]
  norm_num [cellW]

/-- C2 counterexample: a call sequence consisting of one no-op `stimulate`
leaves the fresh cell's area at its initial value `2`, which misses
`targetArea = π` by far more than the `1e-6` relative tolerance — the
claim fails for sequences whose last call skips the rescale. -/
theorem C2_counterexample :
    cellW.stimulate rngW maskF = some (cellW, rngW) ∧
    1e-6 * (π * cellW.base_r ^ 2) < |polygon_area cellW.absPt - π * cellW.base_r ^ 2| := by
  constructor
  · refine stimulate_noop_aux cellW rngW maskF
      (fun i _ => cellW_vInBounds_all (by norm_num [maskF]) (by norm_num [maskF]) i)
      (Or.inr ?_)
    simp [Cell.vHit, maskF]
  · rw [cellW_area, show cellW.base_r = 1 from rfl]
    have hgt : (3 : ℝ) < π := Real.pi_gt_three
    have hlt : π < 3.15 := Real.pi_lt_315
    rw [abs_of_nonpos (by nlinarith)]
    nlinarith

/-- C3 (amended): the ruffling perturbation is one normal sample with
standard deviation `ruffleStd * baseRadius`, one integer harmonic `k` and
one uniform phase in `[0, 2π)`, shared by all vertices — but Python's
inclusive `randint(1, 3)` draws `k` from `{1, 2, 3}`, not `{1, 2}`. -/
lemma ruffleHarmonic_val (g : RNG) : ruffleHarmonic g = 1 + ⌊g.floats (g.pos + 1) * 3⌋ := by
  unfold ruffleHarmonic RNG.randint RNG.advance
  norm_num

lemma ruffleHarmonic_mem (g : RNG) (hg : g.wf) : ruffleHarmonic g ∈ ({1, 2, 3} : Set ℤ) := by
  obtain ⟨h0, h1⟩ := hg (g.pos + 1)
  have hfl0 : 0 ≤ ⌊g.floats (g.pos + 1) * 3⌋ := Int.floor_nonneg.mpr (by nlinarith)
  have hfl2 : ⌊g.floats (g.pos + 1) * 3⌋ < 3 := Int.floor_lt.mpr (by push_cast; nlinarith)
  rw [ruffleHarmonic_val]
  simp only [Set.mem_insert_iff, Set.mem_singleton_iff]
  omega

theorem C3_ruffle (c : Cell V) (g : RNG) (hg : g.wf) :
    ∃ k ∈ ({1, 2, 3} : Set ℤ), ∃ phase ∈ Set.Ico (0 : ℝ) (2 * π),
      c.ruffledRadii g = fun i =>
        c.r i + (g.normalvariate 0 (c.ruffle_std * c.base_r)).1 *
          Real.cos ((k : ℝ) * angle V i + phase) := by
  refine ⟨ruffleHarmonic g, ruffleHarmonic_mem g hg, ((g.advance 2).uniform 0 (2 * π)).1, ?_, rfl⟩
  · unfold RNG.uniform RNG.advance
    dsimp only
    obtain ⟨h0, h1⟩ := hg (g.pos + 2)
    have hpi := Real.pi_pos
    exact ⟨by nlinarith, by nlinarith⟩

/-- C3 witness: the zero stream draws `k = 1` and phase `0`, matching the
amended description. -/
theorem C3_witness : RNG.wf rngW ∧
    ∃ k ∈ ({1, 2, 3} : Set ℤ), ∃ phase ∈ Set.Ico (0 : ℝ) (2 * π),
      cellW.ruffledRadii rngW = fun i =>
        cellW.r i + (rngW.normalvariate 0 (cellW.ruffle_std * cellW.base_r)).1 *
          Real.cos ((k : ℝ) * angle 4 i + phase) := by
  have hwf : RNG.wf rngW := fun n => by norm_num [rngW]
  exact ⟨hwf, C3_ruffle cellW rngW hwf⟩

/-- C3 counterexample: a well-formed stream with uniform draws `0.9` makes
`randint(1, 3)` return `3`, so the harmonic is drawn outside `{1, 2}`. -/
theorem C3_counterexample :
    RNG.wf rngBad ∧ ruffleHarmonic rngBad = 3 ∧ (3 : ℤ) ∉ ({1, 2} : Set ℤ) := by
  refine ⟨fun n => by norm_num [rngBad], ?_, by norm_num⟩
  rw [ruffleHarmonic_val]
  have hfl : ⌊(rngBad.floats (rngBad.pos + 1) : ℝ) * 3⌋ = 2 := by
    rw [show (rngBad.floats (rngBad.pos + 1) : ℝ) * 3 = 27 / 10 from by norm_num [rngBad]]
    rw [Int.floor_eq_iff]
    norm_num
  rw [hfl]
  norm_num

/-- C7: the physics state is a pure function of the seed stream, the
configuration and the per-tick inputs — two populations built from the
same parameters and generator, fed the same masks and `dt` values, emit
identical polygon sets at every tick. -/
theorem C7_determinism (p : SimParams) (g : RNG) (n : ℕ) (inputs : List (Mask × ℝ))
    (s1 s2 : List (Cell V) × RNG) (h1 : s1 = mkCells V p n g) (h2 : s2 = mkCells V p n g) :
    polyTrace inputs s1.1 s1.2 = polyTrace inputs s2.1 s2.2 := by
  rw [h1, h2]

/-- C7 witness: the concrete one-cell population run for one tick. -/
theorem C7_witness :
    simC1 = mkCells 4 pC1 1 gC1 ∧
    polyTrace [(maskF, 1)] simC1.1 simC1.2 = polyTrace [(maskF, 1)] simC1.1 simC1.2 :=
  ⟨rfl, C7_determinism pC1 gC1 1 [(maskF, 1)] simC1 simC1 rfl rfl⟩

/-- C1 (amended): immediately after the clamp in `stimulate`/`update`,
every vertex radius lies in `[0.4 * baseRadius, 2.2 * baseRadius]`; the
area-conservation rescale that follows multiplies all radii by a common
factor and can leave the band (see the counterexample). -/
theorem C1_band_after_clamp (c : Cell V) (hb : 0 ≤ c.base_r) (r0 : ZMod V → ℝ) (i : ZMod V) :
    0.4 * c.base_r ≤ c.clampR r0 i ∧ c.clampR r0 i ≤ 2.2 * c.base_r :=
  clampR_mem c hb r0 i

/-- C1 witness: the clamp maps an out-of-band radius into the band. -/
theorem C1_witness :
    0 ≤ cellW.base_r ∧
    0.4 * cellW.base_r ≤ cellW.clampR (fun _ => 37) 0 ∧
    cellW.clampR (fun _ => 37) 0 ≤ 2.2 * cellW.base_r :=
  ⟨by norm_num [cellW],
    (C1_band_after_clamp cellW (by norm_num [cellW]) (fun _ => 37) 0).1,
    (C1_band_after_clamp cellW (by norm_num [cellW]) (fun _ => 37) 0).2⟩

lemma maskF_not_any : ¬ maskF.any := by simp [Mask.any, maskF]

lemma frame_noStim (cs : List (Cell V)) (g : RNG) (m : Mask) (dt : ℝ) (hm : ¬ m.any) :
    frame cs g m dt = some (collideAll (updateList dt cs g).1, (updateList dt cs g).2) := by
  unfold frame
  rw [if_neg hm]

lemma cellC1_base_r : cellC1.base_r = 1 := by
  simp only [cellC1, mkCell]
  norm_num [RNG.random, gC1, pC1]

lemma cellC1_r (i : ZMod 4) : cellC1.r i = 1 := by
  simp only [cellC1, mkCell]
  norm_num [RNG.random, gC1, pC1]

lemma ruffledC1 (i : ZMod 4) :
    cellC1.ruffledRadii (gC1b.advance 2) i = 1 + 10 * Real.cos (angle 4 i) := by
  unfold Cell.ruffledRadii
  rw [cellC1_r, ruffleHarmonic_val]
  norm_num [RNG.normalvariate, RNG.uniform, RNG.random, RNG.advance, gC1b, gC1, cellC1,
    mkCell, pC1]

lemma cellM_r (i : ZMod 4) :
    cellM.r i = clip (1 + 10 * Real.cos (angle 4 i)) 0.4 2.2 := by
  unfold cellM Cell.updateMid Cell.clampR
  dsimp only
  rw [show cellC1.curvature_relax = 0 from rfl, show cellC1.radial_relax = 0 from rfl,
    ruffledC1 i, cellC1_base_r]
  norm_num

lemma cellM_r0 : cellM.r 0 = 2.2 := by
  rw [cellM_r 0, angle4_0, Real.cos_zero]
  unfold clip
  rw [show (1 : ℝ) + 10 * 1 = 11 from by norm_num,
    max_eq_left (by norm_num), min_eq_right (by norm_num)]

lemma cellM_r1 : cellM.r 1 = 1 := by
  rw [cellM_r 1, angle4_1, Real.cos_pi_div_two]
  unfold clip
  rw [show (1 : ℝ) + 10 * 0 = 1 from by norm_num,
    max_eq_left (by norm_num), min_eq_left (by norm_num)]

lemma cellM_r2 : cellM.r 2 = 0.4 := by
  rw [cellM_r 2, angle4_2, Real.cos_pi]
  unfold clip
  rw [show (1 : ℝ) + 10 * (-1) = -9 from by norm_num,
    max_eq_right (by norm_num), min_eq_left (by norm_num)]

lemma cellM_r3 : cellM.r 3 = 1 := by
  rw [cellM_r 3, angle4_3, cos_three_halves_pi]
  unfold clip
  rw [show (1 : ℝ) + 10 * 0 = 1 from by norm_num,
    max_eq_left (by norm_num), min_eq_left (by norm_num)]

lemma cellM_base_r : cellM.base_r = 1 := cellC1_base_r

lemma cellM_area : polygon_area cellM.absPt = 13 / 5 := by
  rw [polygon_area_abs_rel, polygon_area_rel_formula]
  rw [show 2 * π / ((4 : ℕ) : ℝ) = π / 2 from by push_cast; ring, Real.sin_pi_div_two]
  rw [sum_zmod4 (fun i => cellM.r i * cellM.r (i + 1))]
  rw [show (0 : ZMod 4) + 1 = 1 from by decide, show (1 : ZMod 4) + 1 = 2 from by decide,
    show (2 : ZMod 4) + 1 = 3 from by decide, show (3 : ZMod 4) + 1 = 0 from by decide]
  rw [cellM_r0, cellM_r1, cellM_r2, cellM_r3]
  norm_num

lemma cellU_r0 : cellU.r 0 = 2.2 * Real.sqrt (π * 1 ^ 2 / (13 / 5)) := by
  unfold cellU Cell.update
  dsimp only
  rw [show Cell.conserve_area (cellC1.updateMid gC1b 1) = Cell.conserve_area cellM from rfl]
  rw [conserve_r_of_ne cellM (by rw [cellM_area]; norm_num)]
  dsimp only
  rw [cellM_r0, cellM_base_r, cellM_area, abs_of_pos (by norm_num : (0 : ℝ) < 13 / 5)]

lemma cellU_base_r : cellU.base_r = 1 := by
  unfold cellU
  rw [update_base_r_eq]
  exact cellC1_base_r

lemma cellU_big : 2.2 * cellU.base_r < cellU.r 0 := by
  rw [cellU_base_r, cellU_r0]
  have h1 : (1 : ℝ) < Real.sqrt (π * 1 ^ 2 / (13 / 5)) := by
    rw [Real.lt_sqrt (by norm_num : (0 : ℝ) ≤ 1)]
    nlinarith [Real.pi_gt_three]
  nlinarith

/-- C1 counterexample: a completed frame (empty mask, one update, no
collisions) produced by `get_frame` ends with vertex radius
`2.2 * sqrt(π / 2.6) * baseRadius > 2.2 * baseRadius` — the
area-conservation rescale after the clamp breaks the band. -/
theorem C1_counterexample :
    ∃ out, frame simC1.1 simC1.2 maskF 1 = some out ∧
      ∃ c ∈ out.1, ∃ i : ZMod 4, 2.2 * c.base_r < c.r i := by
  refine ⟨([cellU], gC1b.advance 5), ?_, cellU, by simp, 0, cellU_big⟩
  rw [frame_noStim simC1.1 simC1.2 maskF 1 maskF_not_any]
  rfl

end
